import Mathlib

set_option maxHeartbeats 1000000

/-!
Verification development for the Pure-Gouache painting engine.

Shallow embedding of the core of the repository:
* `src/utils/color.ts`   — color mathematics (CMYK pigment mixing, hex parsing)
* `src/utils/canvasUtils.ts` — paper-texture height-map derivation
* `src/hooks/useGouacheEngine.ts` — history manager, undo/redo, resize, mask
  inversion, bristle generation, paint-load dynamics, pattern-stamping guards.

JavaScript floating-point numbers are modelled by `ℚ`; the claims settled here
depend only on the algebraic form of the computations, not on binary rounding.
`Uint8ClampedArray` pixel data is modelled by `List ℕ` with entries in `[0,255]`.
-/

/-! ## Color mathematics (src/utils/color.ts) -/

/-- An RGB color triple, channels as (possibly fractional) numbers. -/
structure Rgb where
  r : ℚ
  g : ℚ
  b : ℚ
deriving DecidableEq, Repr

/-- A CMYK quadruple. -/
structure Cmyk where
  c : ℚ
  m : ℚ
  y : ℚ
  k : ℚ
deriving DecidableEq, Repr

/-- `rgbToCmyk` from src/utils/color.ts (lines 27–41). -/
def rgbToCmyk (r g b : ℚ) : Cmyk :=
  let c := 1 - r / 255
  let m := 1 - g / 255
  let y := 1 - b / 255
  let k := min c (min m y)
  if k = 1 then ⟨0, 0, 0, 1⟩
  else ⟨(c - k) / (1 - k), (m - k) / (1 - k), (y - k) / (1 - k), k⟩

/-- `cmykToRgb` from src/utils/color.ts (lines 43–48). -/
def cmykToRgb (c m y k : ℚ) : Rgb :=
  ⟨255 * (1 - c) * (1 - k), 255 * (1 - m) * (1 - k), 255 * (1 - y) * (1 - k)⟩

/-- JavaScript `Math.round`: round half toward positive infinity. -/
def jsRound (q : ℚ) : ℤ := ⌊q + 1 / 2⌋

/-- `mixPigments` from src/utils/color.ts (lines 50–66): convert both colors
to CMYK, interpolate each channel by `t`, convert back, round each channel. -/
def mixPigments (c1 c2 : Rgb) (t : ℚ) : ℤ × ℤ × ℤ :=
  let color1 := rgbToCmyk c1.r c1.g c1.b
  let color2 := rgbToCmyk c2.r c2.g c2.b
  let c := color1.c + (color2.c - color1.c) * t
  let m := color1.m + (color2.m - color1.m) * t
  let y := color1.y + (color2.y - color1.y) * t
  let k := color1.k + (color2.k - color1.k) * t
  let result := cmykToRgb c m y k
  (jsRound result.r, jsRound result.g, jsRound result.b)

/-- C1: `mixPigments` converts both colors to CMYK, linearly interpolates each
channel by `t`, and converts back (first conjunct, the definitional pipeline);
in particular mixing pure cyan `{r:0,g:255,b:255}` and pure yellow
`{r:255,g:255,b:0}` at `t = 1/2` yields `(128, 255, 128)`, whose green channel
is strictly greater than both its red and blue channels. -/
theorem mixPigments_cmyk_pipeline_and_cyan_yellow_green :
    (∀ (c1 c2 : Rgb) (t : ℚ),
      mixPigments c1 c2 t =
        (jsRound (cmykToRgb
            ((rgbToCmyk c1.r c1.g c1.b).c +
              ((rgbToCmyk c2.r c2.g c2.b).c - (rgbToCmyk c1.r c1.g c1.b).c) * t)
            ((rgbToCmyk c1.r c1.g c1.b).m +
              ((rgbToCmyk c2.r c2.g c2.b).m - (rgbToCmyk c1.r c1.g c1.b).m) * t)
            ((rgbToCmyk c1.r c1.g c1.b).y +
              ((rgbToCmyk c2.r c2.g c2.b).y - (rgbToCmyk c1.r c1.g c1.b).y) * t)
            ((rgbToCmyk c1.r c1.g c1.b).k +
              ((rgbToCmyk c2.r c2.g c2.b).k - (rgbToCmyk c1.r c1.g c1.b).k) * t)).r,
         jsRound (cmykToRgb
            ((rgbToCmyk c1.r c1.g c1.b).c +
              ((rgbToCmyk c2.r c2.g c2.b).c - (rgbToCmyk c1.r c1.g c1.b).c) * t)
            ((rgbToCmyk c1.r c1.g c1.b).m +
              ((rgbToCmyk c2.r c2.g c2.b).m - (rgbToCmyk c1.r c1.g c1.b).m) * t)
            ((rgbToCmyk c1.r c1.g c1.b).y +
              ((rgbToCmyk c2.r c2.g c2.b).y - (rgbToCmyk c1.r c1.g c1.b).y) * t)
            ((rgbToCmyk c1.r c1.g c1.b).k +
              ((rgbToCmyk c2.r c2.g c2.b).k - (rgbToCmyk c1.r c1.g c1.b).k) * t)).g,
         jsRound (cmykToRgb
            ((rgbToCmyk c1.r c1.g c1.b).c +
              ((rgbToCmyk c2.r c2.g c2.b).c - (rgbToCmyk c1.r c1.g c1.b).c) * t)
            ((rgbToCmyk c1.r c1.g c1.b).m +
              ((rgbToCmyk c2.r c2.g c2.b).m - (rgbToCmyk c1.r c1.g c1.b).m) * t)
            ((rgbToCmyk c1.r c1.g c1.b).y +
              ((rgbToCmyk c2.r c2.g c2.b).y - (rgbToCmyk c1.r c1.g c1.b).y) * t)
            ((rgbToCmyk c1.r c1.g c1.b).k +
              ((rgbToCmyk c2.r c2.g c2.b).k - (rgbToCmyk c1.r c1.g c1.b).k) * t)).b)) ∧
    mixPigments ⟨0, 255, 255⟩ ⟨255, 255, 0⟩ (1 / 2) = (128, 255, 128) ∧
    (mixPigments ⟨0, 255, 255⟩ ⟨255, 255, 0⟩ (1 / 2)).1 <
      (mixPigments ⟨0, 255, 255⟩ ⟨255, 255, 0⟩ (1 / 2)).2.1 ∧
    (mixPigments ⟨0, 255, 255⟩ ⟨255, 255, 0⟩ (1 / 2)).2.2 <
      (mixPigments ⟨0, 255, 255⟩ ⟨255, 255, 0⟩ (1 / 2)).2.1 := by
  refine ⟨fun c1 c2 t => rfl, ?_, ?_, ?_⟩ <;>
    norm_num [mixPigments, rgbToCmyk, cmykToRgb, jsRound, min_def, Prod.ext_iff]

/-! ## Paper texture height map (src/utils/canvasUtils.ts, processPaperTexture) -/

/-- The per-pixel rejection value computed inside `processPaperTexture`
(src/utils/canvasUtils.ts lines 45–80): luminance, inversion, small-grain
cutoff, cubic amplification by 64, clamp to `[0,1]`. -/
def rejectionOf (r g b : ℚ) : ℚ :=
  let lum := (0.299 * r + 0.587 * g + 0.114 * b) / 255
  let rejection := 1 - lum
  let rejection := if rejection < 0.02 then 0 else rejection ^ 3 * 64.0
  min 1 (max 0 rejection)

/-- `physicsAlpha` of a source pixel: `Math.floor(rejection * 255)`
(src/utils/canvasUtils.ts line 83). -/
def physicsAlpha (r g b : ℚ) : ℤ := ⌊rejectionOf r g b * 255⌋

/-- The height-map generation loop of `processPaperTexture`
(src/utils/canvasUtils.ts lines 45–89) acting on the flat RGBA source data:
every pixel is written as black with the physics alpha. The loop strides by 4
over the `Uint8ClampedArray`; `ImageData` lengths are multiples of 4. -/
def processHeightMapData : List ℕ → List ℤ
  | r :: g :: b :: _a :: rest =>
      0 :: 0 :: 0 :: physicsAlpha r g b :: processHeightMapData rest
  | _ => []

/-- Flatten a list of RGBA pixel quadruples into flat `Uint8ClampedArray` data. -/
def rgbaFlatten : List (ℕ × ℕ × ℕ × ℕ) → List ℕ
  | [] => []
  | (r, g, b, a) :: rest => r :: g :: b :: a :: rgbaFlatten rest

/-- The height-map alpha exactly as the specification words it: luminance
`L = (0.299·R + 0.587·G + 0.114·B)/255`, `rejection = 1 − L`, zeroed when
`rejection < 0.02`, otherwise cubed and multiplied by 64, clamped to `[0,1]`,
scaled to the `[0,255]` alpha channel. -/
def specHeightAlpha (r g b : ℕ) : ℤ :=
  let l : ℚ := (0.299 * (r : ℚ) + 0.587 * (g : ℚ) + 0.114 * (b : ℚ)) / 255
  let rej : ℚ := 1 - l
  let rej := if rej < 0.02 then 0 else rej ^ 3 * 64
  ⌊min 1 (max 0 rej) * 255⌋

/-- C6: for every source pixel `(R,G,B)` the height-map pixel written by
`processPaperTexture` is black with alpha derived from luminance via the
rejection formula of the specification.  The same function is the single
derivation path for procedural and user-supplied sources (`createNoiseTexture`
terminates by calling `processPaperTexture` on its generated image). -/
theorem processPaperTexture_heightMap_formula :
    ∀ px : List (ℕ × ℕ × ℕ × ℕ),
      processHeightMapData (rgbaFlatten px) =
        (px.map fun p => [0, 0, 0, specHeightAlpha p.1 p.2.1 p.2.2.1]).flatten
  | [] => rfl
  | (r, g, b, a) :: rest => by
      have ih := processPaperTexture_heightMap_formula rest
      have h64 : (64.0 : ℚ) = 64 := by norm_num
      have h : physicsAlpha (r : ℚ) (g : ℚ) (b : ℚ) = specHeightAlpha r g b := by
        simp only [physicsAlpha, rejectionOf, specHeightAlpha, h64]
      simp [rgbaFlatten, processHeightMapData, ih, h]

/-! ## Mask inversion (src/hooks/useGouacheEngine.ts, invertMask) -/

/-- The pixel loop of `invertMask` (src/hooks/useGouacheEngine.ts lines
1501–1504): every pixel's alpha becomes `255 − a` and its RGB is recolored to
the fixed highlight tint `(43, 108, 176)`. -/
def invertMaskData : List ℕ → List ℕ
  | _r :: _g :: _b :: a :: rest => 43 :: 108 :: 176 :: (255 - a) :: invertMaskData rest
  | other => other

/-- The alpha channel of flat RGBA data (every fourth byte). -/
def alphaChannel : List ℕ → List ℕ
  | _r :: _g :: _b :: a :: rest => a :: alphaChannel rest
  | _ => []

/-- One application of the `invertMask` loop maps every alpha `a` to `255 − a`. -/
theorem invertMaskData_alpha :
    ∀ data : List ℕ,
      alphaChannel (invertMaskData data) = (alphaChannel data).map (fun a => 255 - a)
  | _r :: _g :: _b :: a :: rest => by
      simp [invertMaskData, alphaChannel, invertMaskData_alpha rest]
  | [] => rfl
  | [_] => rfl
  | [_, _] => rfl
  | [_, _, _] => rfl

/-- Alpha values written by the `invertMask` loop never exceed 255. -/
theorem invertMaskData_alpha_le :
    ∀ data : List ℕ, ∀ x ∈ alphaChannel (invertMaskData data), x ≤ 255
  | _r :: _g :: _b :: a :: rest => by
      simp only [invertMaskData, alphaChannel, List.mem_cons]
      rintro x (rfl | hx)
      · omega
      · exact invertMaskData_alpha_le rest x hx
  | [] => by simp [invertMaskData, alphaChannel]
  | [_] => by simp [invertMaskData, alphaChannel]
  | [_, _] => by simp [invertMaskData, alphaChannel]
  | [_, _, _] => by simp [invertMaskData, alphaChannel]

/-- Alpha values of `Uint8ClampedArray` data bounded by 255 stay pointwise
recoverable: `255 − (255 − a) = a`. -/
theorem alphaChannel_le_of_le (data : List ℕ) (h : ∀ x ∈ data, x ≤ 255) :
    ∀ x ∈ alphaChannel data, x ≤ 255 := by
  induction data using alphaChannel.induct with
  | case1 r g b a rest ih =>
      simp only [alphaChannel, List.mem_cons]
      rintro x (rfl | hx)
      · exact h x (by simp)
      · exact ih (fun y hy => h y (by simp [hy])) x hx
  | case2 d hd => cases d <;> simp_all [alphaChannel]

/-- C7: `invertMask` replaces every mask pixel's alpha `a` with `255 − a`
(recoloring RGB to the fixed highlight tint), so applying it twice restores the
original alpha channel of every pixel exactly.  The hypothesis records that the
source data lives in a `Uint8ClampedArray`, whose entries are at most 255. -/
theorem invertMask_twice_restores_alpha (data : List ℕ) (h : ∀ x ∈ data, x ≤ 255) :
    alphaChannel (invertMaskData (invertMaskData data)) = alphaChannel data ∧
    alphaChannel (invertMaskData data) = (alphaChannel data).map (fun a => 255 - a) := by
  refine ⟨?_, invertMaskData_alpha data⟩
  rw [invertMaskData_alpha, invertMaskData_alpha, List.map_map]
  have hle := alphaChannel_le_of_le data h
  calc (alphaChannel data).map ((fun a => 255 - a) ∘ fun a => 255 - a)
      = (alphaChannel data).map id := by
        apply List.map_congr_left
        intro a ha
        have := hle a ha
        simp only [Function.comp_apply, id_eq]
        omega
    _ = alphaChannel data := List.map_id _

/-- Witness for C7 at concrete data. -/
theorem invertMask_twice_restores_alpha_witness :
    alphaChannel (invertMaskData (invertMaskData [10, 20, 30, 40, 50, 60, 70, 255])) =
      alphaChannel [10, 20, 30, 40, 50, 60, 70, 255] :=
  (invertMask_twice_restores_alpha [10, 20, 30, 40, 50, 60, 70, 255] (by decide)).1

/-! ## History manager (src/hooks/useGouacheEngine.ts) -/

/-- A history entry: `{ layerId, painting, mask }` — a full raster snapshot of
the active layer plus the mask raster (src/hooks/useGouacheEngine.ts lines
69–73 and 607). Rasters are flat `Uint8ClampedArray` pixel data. -/
structure HistoryEntry where
  layerId : ℕ
  painting : List ℕ
  mask : List ℕ
deriving DecidableEq, Repr

/-- The byte size of one entry: `painting.data.length + mask.data.length`. -/
def entryBytes (e : HistoryEntry) : ℕ := e.painting.length + e.mask.length

/-- Total byte usage of the history stack (line 609). -/
def totalBytes (h : List HistoryEntry) : ℕ := (h.map entryBytes).sum

/-- `MAX_HISTORY_BYTES = 150 * 1024 * 1024` (line 109). -/
def MAX_HISTORY_BYTES : ℕ := 150 * 1024 * 1024

/-- Pixel dimensions of a canvas. -/
structure CanvasDims where
  width : ℕ
  height : ℕ
deriving DecidableEq, Repr

/-- The engine state visible to the history manager: per-layer rasters (total
map from layer id), the mask raster, the linear history stack with its pointer
(`historyIndex`, `-1` when empty), the active layer id, and the canvas
dimensions tracked by `updateSize`. -/
structure EngineState where
  layers : ℕ → List ℕ
  mask : List ℕ
  history : List HistoryEntry
  historyIndex : ℤ
  activeLayer : ℕ
  maskDim : CanvasDims
  tempDim : CanvasDims
  compositeDim : CanvasDims
  layerDims : List CanvasDims

/-- The byte-budget eviction loop of `commitHistory` (lines 610–613):
`while (history.length > 0 && currentMemoryUsage > MAX_HISTORY_BYTES) shift`,
decrementing `historyIndex` per removed entry.  The running
`currentMemoryUsage` always equals `totalBytes` of the remaining list. -/
def evictWhileOver : List HistoryEntry → ℤ → List HistoryEntry × ℤ
  | [], i => ([], i)
  | e :: rest, i =>
      if MAX_HISTORY_BYTES < totalBytes (e :: rest) then evictWhileOver rest (i - 1)
      else (e :: rest, i)

/-- The stack manipulation of `commitHistory` (lines 606–614): truncate any
redone-then-abandoned future entries (`history.splice(historyIndex + 1)`),
append the new entry, increment the pointer, evict from the front while the
byte budget is exceeded, and finally drop one more entry from the front if the
count exceeds 20. -/
def commitPush (hist : List HistoryEntry) (i : ℤ) (e : HistoryEntry) :
    List HistoryEntry × ℤ :=
  let hist := if i < (hist.length : ℤ) - 1 then hist.take (i + 1).toNat else hist
  let hist := hist ++ [e]
  let p := evictWhileOver hist (i + 1)
  if 20 < p.1.length then (p.1.drop 1, p.2 - 1) else p

/-- `commitHistory` (lines 597–615): snapshot the active layer and the mask
into a new entry and push it onto the history stack.  The zero-dimension early
return (line 604) leaves the state unchanged and is outside this committed
path. -/
def commitHistory (s : EngineState) : EngineState :=
  let e : HistoryEntry := ⟨s.activeLayer, s.layers s.activeLayer, s.mask⟩
  let p := commitPush s.history s.historyIndex e
  { s with history := p.1, historyIndex := p.2 }

/-- `undo` (lines 617–626): no-op when the pointer is at the oldest entry,
otherwise decrement the pointer and restore the target entry's layer raster
and the mask raster verbatim. -/
def undo (s : EngineState) : EngineState :=
  if s.historyIndex ≤ 0 then s
  else
    let i := s.historyIndex - 1
    match s.history[i.toNat]? with
    | some e =>
        { s with historyIndex := i,
                 layers := fun x => if x = e.layerId then e.painting else s.layers x,
                 mask := e.mask }
    | none => { s with historyIndex := i }

/-- `redo` (lines 628–637): no-op when the pointer is at the newest entry,
otherwise increment the pointer and restore that entry's rasters. -/
def redo (s : EngineState) : EngineState :=
  if (s.history.length : ℤ) - 1 ≤ s.historyIndex then s
  else
    let i := s.historyIndex + 1
    match s.history[i.toNat]? with
    | some e =>
        { s with historyIndex := i,
                 layers := fun x => if x = e.layerId then e.painting else s.layers x,
                 mask := e.mask }
    | none => { s with historyIndex := i }

/-! ### C2: bounds after commitHistory -/

/-- The eviction loop only ever removes entries from the front: its result is
a suffix (`drop k`) of its input. -/
theorem evictWhileOver_eq_drop :
    ∀ (l : List HistoryEntry) (i : ℤ), ∃ k, (evictWhileOver l i).1 = l.drop k
  | [], _ => ⟨0, rfl⟩
  | e :: rest, i => by
      rw [evictWhileOver]
      split
      · obtain ⟨k, hk⟩ := evictWhileOver_eq_drop rest (i - 1)
        exact ⟨k + 1, by simpa using hk⟩
      · exact ⟨0, rfl⟩

/-- After the eviction loop the remaining stack fits the byte budget. -/
theorem evictWhileOver_totalBytes :
    ∀ (l : List HistoryEntry) (i : ℤ),
      totalBytes (evictWhileOver l i).1 ≤ MAX_HISTORY_BYTES
  | [], _ => by simp [evictWhileOver, totalBytes]
  | e :: rest, i => by
      rw [evictWhileOver]
      split
      · exact evictWhileOver_totalBytes rest (i - 1)
      · dsimp only
        omega

/-- The eviction loop never lengthens the stack. -/
theorem evictWhileOver_length_le :
    ∀ (l : List HistoryEntry) (i : ℤ), (evictWhileOver l i).1.length ≤ l.length
  | [], _ => le_refl _
  | e :: rest, i => by
      rw [evictWhileOver]
      split
      · exact le_trans (evictWhileOver_length_le rest (i - 1)) (by simp)
      · exact le_refl _

/-- Dropping entries from the front never increases the byte usage. -/
theorem totalBytes_drop_le (l : List HistoryEntry) (k : ℕ) :
    totalBytes (l.drop k) ≤ totalBytes l := by
  induction l generalizing k with
  | nil => simp [totalBytes]
  | cons e rest ih =>
      cases k with
      | zero => exact le_refl _
      | succ k =>
          simp only [List.drop_succ_cons]
          exact le_trans (ih k) (by simp [totalBytes])

/-- The stack produced by `commitPush` is always a suffix of the truncated
stack with the new entry appended: eviction removes oldest entries first. -/
theorem commitPush_eq_drop (hist : List HistoryEntry) (i : ℤ) (e : HistoryEntry) :
    ∃ k, (commitPush hist i e).1 =
      ((if i < (hist.length : ℤ) - 1 then hist.take (i + 1).toNat else hist)
        ++ [e]).drop k := by
  simp only [commitPush]
  set t := if i < (hist.length : ℤ) - 1 then hist.take (i + 1).toNat else hist with ht
  obtain ⟨k, hk⟩ := evictWhileOver_eq_drop (t ++ [e]) (i + 1)
  by_cases h20 : 20 < (evictWhileOver (t ++ [e]) (i + 1)).1.length
  · rw [if_pos h20]
    exact ⟨k + 1, by simp [hk, List.drop_drop]⟩
  · rw [if_neg h20]
    exact ⟨k, hk⟩

/-- After `commitPush` on a stack of at most 20 entries the stack again has at
most 20 entries. -/
theorem commitPush_length_le (hist : List HistoryEntry) (i : ℤ) (e : HistoryEntry)
    (h : hist.length ≤ 20) : (commitPush hist i e).1.length ≤ 20 := by
  simp only [commitPush]
  set t := if i < (hist.length : ℤ) - 1 then hist.take (i + 1).toNat else hist with ht
  have htl : t.length ≤ 20 := by
    rw [ht]
    split
    · rw [List.length_take]
      omega
    · exact h
  have h2 := evictWhileOver_length_le (t ++ [e]) (i + 1)
  rw [List.length_append, List.length_singleton] at h2
  by_cases h20 : 20 < (evictWhileOver (t ++ [e]) (i + 1)).1.length
  · rw [if_pos h20]
    show ((evictWhileOver (t ++ [e]) (i + 1)).1.drop 1).length ≤ 20
    rw [List.length_drop]
    omega
  · rw [if_neg h20]
    omega

/-- After `commitPush` the total byte usage fits the budget. -/
theorem commitPush_totalBytes_le (hist : List HistoryEntry) (i : ℤ) (e : HistoryEntry) :
    totalBytes (commitPush hist i e).1 ≤ MAX_HISTORY_BYTES := by
  simp only [commitPush]
  set t := if i < (hist.length : ℤ) - 1 then hist.take (i + 1).toNat else hist with ht
  have h1 := evictWhileOver_totalBytes (t ++ [e]) (i + 1)
  by_cases h20 : 20 < (evictWhileOver (t ++ [e]) (i + 1)).1.length
  · rw [if_pos h20]
    exact le_trans (totalBytes_drop_le _ 1) h1
  · rw [if_neg h20]
    exact h1

/-- C2: after every call to `commitHistory`, entries after the pointer were
truncated before appending (the post-stack is a suffix of the truncated stack
plus the new snapshot, so eviction removes oldest entries first), the entry
count is at most 20, and the total byte size of all (painting, mask) snapshots
is at most the 150 MiB budget.  The count bound assumes the pre-state already
satisfied the ≤ 20 invariant, which holds for every reachable state since the
stack starts empty. -/
theorem commitHistory_bounds (s : EngineState) (h : s.history.length ≤ 20) :
    (commitHistory s).history.length ≤ 20 ∧
    totalBytes (commitHistory s).history ≤ MAX_HISTORY_BYTES ∧
    ∃ k, (commitHistory s).history =
      ((if s.historyIndex < (s.history.length : ℤ) - 1 then
          s.history.take (s.historyIndex + 1).toNat
        else s.history) ++
          [(⟨s.activeLayer, s.layers s.activeLayer, s.mask⟩ : HistoryEntry)]).drop k :=
  ⟨commitPush_length_le s.history s.historyIndex _ h,
   commitPush_totalBytes_le s.history s.historyIndex _,
   commitPush_eq_drop s.history s.historyIndex _⟩

/-- A concrete engine state used to instantiate theorems with hypotheses. -/
def smallState : EngineState :=
  { layers := fun _ => [1, 2, 3, 4], mask := [0, 0, 0, 5], history := [],
    historyIndex := -1, activeLayer := 0, maskDim := ⟨2, 2⟩, tempDim := ⟨2, 2⟩,
    compositeDim := ⟨2, 2⟩, layerDims := [⟨2, 2⟩] }

/-- Witness for C2 at a concrete state. -/
theorem commitHistory_bounds_witness :
    (commitHistory smallState).history.length ≤ 20 ∧
    totalBytes (commitHistory smallState).history ≤ MAX_HISTORY_BYTES :=
  ⟨(commitHistory_bounds smallState (by norm_num [smallState])).1,
   (commitHistory_bounds smallState (by norm_num [smallState])).2.1⟩

/-! ### C3: undo ∘ redo round trip after a sequence of commits -/

/-- A committed paint operation: the raster it leaves on its target layer and
the mask raster it leaves, after which `commitHistory` runs (this is the shape
of `endStroke`, `clear`, `clearMask`, `invertMask` and every fill or pattern
tool in src/hooks/useGouacheEngine.ts). -/
structure PaintOp where
  layerId : ℕ
  painting : List ℕ
  mask : List ℕ

/-- Perform a committed paint operation: mutate the target layer and the mask,
then `commitHistory` (which snapshots exactly those rasters). -/
def applyPaintOp (s : EngineState) (op : PaintOp) : EngineState :=
  commitHistory
    { s with activeLayer := op.layerId,
             layers := fun x => if x = op.layerId then op.painting else s.layers x,
             mask := op.mask }

/-- A sequence of committed paint operations. -/
def applyPaintOps (s : EngineState) (ops : List PaintOp) : EngineState :=
  ops.foldl applyPaintOp s

/-- The engine's initial state: empty rasters, empty history, pointer `-1`. -/
def initState : EngineState :=
  { layers := fun _ => [], mask := [], history := [], historyIndex := -1,
    activeLayer := 0, maskDim := ⟨0, 0⟩, tempDim := ⟨0, 0⟩,
    compositeDim := ⟨0, 0⟩, layerDims := [] }

/-- Consistency of the current rasters with the newest history entries, phrased
over the reversed stack (newest entry first): the newest entry is a snapshot of
the current state, and the second-newest entry still matches the current raster
of its layer whenever that layer differs from the newest entry's layer. -/
def RevOk (L : ℕ → List ℕ) (M : List ℕ) : List HistoryEntry → Prop
  | [] => True
  | [e] => L e.layerId = e.painting ∧ M = e.mask
  | e :: e' :: _ =>
      (L e.layerId = e.painting ∧ M = e.mask) ∧
      (e'.layerId ≠ e.layerId → L e'.layerId = e'.painting)

/-- The state invariant maintained by committed paint operations: the pointer
sits at the newest entry and the newest entries are consistent snapshots. -/
def Consistent (s : EngineState) : Prop :=
  s.historyIndex = (s.history.length : ℤ) - 1 ∧ RevOk s.layers s.mask s.history.reverse

/-- `RevOk` only inspects the two newest entries, so it survives truncation of
older entries (a `take` on the reversed stack). -/
theorem RevOk_take (L : ℕ → List ℕ) (M : List ℕ) :
    ∀ (l : List HistoryEntry) (n : ℕ), RevOk L M l → RevOk L M (l.take n)
  | [], n, h => by simpa using h
  | [e], n, h => by
      cases n with
      | zero => trivial
      | succ n => simpa [RevOk] using h
  | e :: e' :: rest, n, h => by
      match n with
      | 0 => trivial
      | 1 => exact h.1
      | (n + 2) => exact h

/-- Pushing a fresh snapshot entry on top of a consistent stack keeps it
consistent, provided the new rasters agree with the entry and agree with the
old rasters away from the entry's layer. -/
theorem RevOk_push (L : ℕ → List ℕ) (M : List ℕ) (l : List HistoryEntry)
    (e : HistoryEntry) (L2 : ℕ → List ℕ) (M2 : List ℕ)
    (h1 : L2 e.layerId = e.painting) (h2 : M2 = e.mask)
    (hold : RevOk L M l)
    (hkeep : ∀ x, x ≠ e.layerId → L2 x = L x) :
    RevOk L2 M2 (e :: l) := by
  cases l with
  | nil => exact ⟨h1, h2⟩
  | cons e' rest =>
      refine ⟨⟨h1, h2⟩, fun hne => ?_⟩
      rw [hkeep _ hne]
      cases rest with
      | nil => exact hold.1
      | cons f fs => exact hold.1.1

/-- The eviction loop keeps the pointer at the newest entry. -/
theorem evictWhileOver_index :
    ∀ (l : List HistoryEntry) (i : ℤ), i = (l.length : ℤ) - 1 →
      (evictWhileOver l i).2 = ((evictWhileOver l i).1.length : ℤ) - 1
  | [], i, h => by simpa [evictWhileOver] using h
  | e :: rest, i, h => by
      rw [evictWhileOver]
      split
      · exact evictWhileOver_index rest (i - 1) (by simp at h ⊢; omega)
      · simpa using h

/-- `commitPush` keeps the pointer at the newest entry. -/
theorem commitPush_index (hist : List HistoryEntry) (i : ℤ) (e : HistoryEntry)
    (h : i = (hist.length : ℤ) - 1) :
    (commitPush hist i e).2 = ((commitPush hist i e).1.length : ℤ) - 1 := by
  simp only [commitPush]
  rw [if_neg (show ¬(i < (hist.length : ℤ) - 1) by omega)]
  have hidx := evictWhileOver_index (hist ++ [e]) (i + 1)
    (by simp [List.length_append]; omega)
  by_cases h20 : 20 < (evictWhileOver (hist ++ [e]) (i + 1)).1.length
  · rw [if_pos h20]
    show (evictWhileOver (hist ++ [e]) (i + 1)).2 - 1 =
      (((evictWhileOver (hist ++ [e]) (i + 1)).1.drop 1).length : ℤ) - 1
    rw [List.length_drop]
    omega
  · rw [if_neg h20]
    exact hidx

/-- Committed paint operations preserve the state invariant. -/
theorem consistent_applyPaintOp (s : EngineState) (op : PaintOp)
    (h : Consistent s) : Consistent (applyPaintOp s op) := by
  obtain ⟨hidx, hrev⟩ := h
  constructor
  · exact commitPush_index s.history s.historyIndex _ hidx
  · set L2 : ℕ → List ℕ :=
      fun x => if x = op.layerId then op.painting else s.layers x with hL2
    set e1 : HistoryEntry := ⟨op.layerId, L2 op.layerId, op.mask⟩ with he1
    show RevOk L2 op.mask (commitPush s.history s.historyIndex e1).1.reverse
    obtain ⟨k, hk⟩ := commitPush_eq_drop s.history s.historyIndex e1
    rw [if_neg (show ¬(s.historyIndex < (s.history.length : ℤ) - 1) by omega)] at hk
    rw [hk, List.reverse_drop]
    apply RevOk_take
    rw [List.reverse_append]
    simp only [List.reverse_cons, List.reverse_nil, List.nil_append,
      List.singleton_append]
    refine RevOk_push s.layers s.mask _ e1 L2 op.mask rfl rfl hrev ?_
    intro x hx
    show (if x = op.layerId then op.painting else s.layers x) = s.layers x
    exact if_neg hx

/-- The invariant holds for the engine's initial state. -/
theorem consistent_initState : Consistent initState := by
  constructor
  · decide
  · trivial

/-- The invariant holds after any sequence of committed paint operations. -/
theorem consistent_applyPaintOps :
    ∀ (ops : List PaintOp) (s : EngineState), Consistent s →
      Consistent (applyPaintOps s ops)
  | [], _, h => h
  | op :: ops, s, h =>
      consistent_applyPaintOps ops (applyPaintOp s op) (consistent_applyPaintOp s op h)

/-- In any consistent state, `redo` after `undo` restores the layer rasters
and the mask raster exactly. -/
theorem redo_undo_restores (s : EngineState) (hc : Consistent s) :
    (∀ id, (redo (undo s)).layers id = s.layers id) ∧
    (redo (undo s)).mask = s.mask := by
  obtain ⟨hidx, hrev⟩ := hc
  by_cases h0 : s.historyIndex ≤ 0
  · rw [undo, if_pos h0, redo, if_pos (by omega)]
    exact ⟨fun _ => rfl, rfl⟩
  · push_neg at h0
    have hlen2 : 2 ≤ s.history.length := by omega
    rcases hre : s.history.reverse with _ | ⟨e, _ | ⟨e', rest⟩⟩
    · exfalso
      have : s.history.reverse.length = 0 := by rw [hre]; rfl
      rw [List.length_reverse] at this
      omega
    · exfalso
      have : s.history.reverse.length = 1 := by rw [hre]; rfl
      rw [List.length_reverse] at this
      omega
    · have hg1 : s.history[s.history.length - 1]? = some e := by
        have h' := List.getElem?_reverse (l := s.history) (i := 0) (by omega)
        rw [hre] at h'
        simpa using h'.symm
      have hg2 : s.history[s.history.length - 2]? = some e' := by
        have h' := List.getElem?_reverse (l := s.history) (i := 1) (by omega)
        rw [hre] at h'
        have h12 : s.history.length - 1 - 1 = s.history.length - 2 := by omega
        rw [h12] at h'
        simpa using h'.symm
      rw [hre] at hrev
      rw [undo, if_neg (by omega)]
      dsimp only
      have hi1 : (s.historyIndex - 1).toNat = s.history.length - 2 := by omega
      rw [hi1, hg2]
      dsimp only
      rw [redo]
      rw [if_neg (show ¬((s.history.length : ℤ) - 1 ≤ s.historyIndex - 1) by omega)]
      dsimp only
      have hi2 : (s.historyIndex - 1 + 1).toNat = s.history.length - 1 := by omega
      rw [hi2, hg1]
      dsimp only
      constructor
      · intro id
        by_cases hid1 : id = e.layerId
        · rw [if_pos hid1, hid1]
          exact hrev.1.1.symm
        · rw [if_neg hid1]
          by_cases hid2 : id = e'.layerId
          · rw [if_pos hid2, hid2]
            have : e'.layerId ≠ e.layerId := by
              intro hcontra
              exact hid1 (hid2.trans hcontra)
            exact (hrev.2 this).symm
          · rw [if_neg hid2]
      · exact hrev.1.2.symm

/-- C3: for any sequence of committed paint operations, `redo` after `undo`
restores the exact layer rasters and mask raster that were in place before the
undo (undo followed by redo is the identity on the committed raster state);
moreover `undo` is a no-op when the stack pointer is at the oldest entry and
`redo` is a no-op when it is at the newest entry. -/
theorem undo_redo_inverse (ops : List PaintOp) (s : EngineState) :
    (∀ id, (redo (undo (applyPaintOps initState ops))).layers id =
        (applyPaintOps initState ops).layers id) ∧
    (redo (undo (applyPaintOps initState ops))).mask =
        (applyPaintOps initState ops).mask ∧
    (s.historyIndex ≤ 0 → undo s = s) ∧
    ((s.history.length : ℤ) - 1 ≤ s.historyIndex → redo s = s) := by
  have hc := consistent_applyPaintOps ops initState consistent_initState
  obtain ⟨h1, h2⟩ := redo_undo_restores (applyPaintOps initState ops) hc
  refine ⟨h1, h2, fun h => ?_, fun h => ?_⟩
  · rw [undo, if_pos h]
  · rw [redo, if_pos h]

/-- Witness for C3: a concrete two-operation sequence on two different layers,
plus the boundary no-ops at the initial state. -/
theorem undo_redo_inverse_witness :
    ((redo (undo (applyPaintOps initState
        [⟨0, [9, 9, 9, 9], [0, 0, 0, 1]⟩, ⟨1, [7, 7, 7, 7], [0, 0, 0, 2]⟩]))).mask =
      (applyPaintOps initState
        [⟨0, [9, 9, 9, 9], [0, 0, 0, 1]⟩, ⟨1, [7, 7, 7, 7], [0, 0, 0, 2]⟩]).mask) ∧
    undo initState = initState ∧ redo initState = initState :=
  ⟨(undo_redo_inverse
      [⟨0, [9, 9, 9, 9], [0, 0, 0, 1]⟩, ⟨1, [7, 7, 7, 7], [0, 0, 0, 2]⟩] initState).2.1,
   (undo_redo_inverse [] initState).2.2.1 (by decide),
   (undo_redo_inverse [] initState).2.2.2 (by decide)⟩

/-! ### C9: updateSize and the history -/

/-- `updateSize` (src/hooks/useGouacheEngine.ts lines 640–689) at the level of
canvas dimensions and the history stack.  `safeResize` resizes one canvas only
when its pixel dimensions differ from the target (content is preserved by a
copy-then-redraw, which does not change our raster model) and reports whether
it resized; `anyResized` collects the reports of the mask canvas and the layer
canvases only (the temp and composite resizes are not tracked, lines 677–680).
If anything was resized the history is cleared (`history = []`,
`historyIndex = -1`) and a fresh baseline is committed; otherwise a baseline
commit happens only when the history is empty.  `newW`/`newH` are the
device-pixel dimensions `width * dpr`, guarded to be positive (line 647). -/
def updateSize (s : EngineState) (newW newH : ℕ) : EngineState :=
  if newW = 0 ∨ newH = 0 then s
  else
    let nd : CanvasDims := ⟨newW, newH⟩
    let anyResized : Prop := s.maskDim ≠ nd ∨ ∃ d ∈ s.layerDims, d ≠ nd
    let s2 : EngineState :=
      { s with maskDim := nd, tempDim := nd, compositeDim := nd,
               layerDims := s.layerDims.map fun _ => nd }
    if anyResized then
      commitHistory { s2 with history := [], historyIndex := -1 }
    else if s2.history.length = 0 then commitHistory s2
    else s2

/-- Pushing a snapshot onto an empty stack keeps exactly that snapshot,
provided it fits the byte budget. -/
theorem commitPush_nil (i : ℤ) (e : HistoryEntry)
    (hfit : entryBytes e ≤ MAX_HISTORY_BYTES) :
    commitPush [] i e = ([e], i + 1) := by
  rw [commitPush]
  simp only [List.take_nil, ite_self, List.nil_append]
  rw [evictWhileOver, if_neg (show ¬(MAX_HISTORY_BYTES < totalBytes [e]) by
    simp only [totalBytes, List.map_cons, List.map_nil, List.sum_cons,
      List.sum_nil, add_zero]
    omega)]
  norm_num

/-- C9 (amended): whenever `updateSize` changes the pixel dimensions of the
mask canvas or any layer canvas, the undo/redo history is discarded and — as
long as the fresh (painting, mask) snapshot fits within the 150 MiB budget —
replaced by that single baseline snapshot with the pointer on it, so `undo` is
a no-op and no pre-resize state is reachable; a resize to identical dimensions
leaves an existing non-empty history untouched and commits a baseline snapshot
only when the history is empty. -/
theorem updateSize_history (s : EngineState) (newW newH : ℕ)
    (hW : newW ≠ 0) (hH : newH ≠ 0)
    (hfit : entryBytes ⟨s.activeLayer, s.layers s.activeLayer, s.mask⟩ ≤
      MAX_HISTORY_BYTES) :
    ((s.maskDim ≠ ⟨newW, newH⟩ ∨ ∃ d ∈ s.layerDims, d ≠ (⟨newW, newH⟩ : CanvasDims)) →
      (updateSize s newW newH).history =
        [⟨s.activeLayer, s.layers s.activeLayer, s.mask⟩] ∧
      (updateSize s newW newH).historyIndex = 0 ∧
      undo (updateSize s newW newH) = updateSize s newW newH) ∧
    (¬(s.maskDim ≠ ⟨newW, newH⟩ ∨ ∃ d ∈ s.layerDims, d ≠ (⟨newW, newH⟩ : CanvasDims)) →
      (s.history ≠ [] →
        (updateSize s newW newH).history = s.history ∧
        (updateSize s newW newH).historyIndex = s.historyIndex) ∧
      (s.history = [] →
        (updateSize s newW newH).history =
          [⟨s.activeLayer, s.layers s.activeLayer, s.mask⟩])) := by
  constructor
  · intro hchanged
    have hstep : updateSize s newW newH =
        commitHistory
          { s with maskDim := ⟨newW, newH⟩, tempDim := ⟨newW, newH⟩,
                   compositeDim := ⟨newW, newH⟩,
                   layerDims := s.layerDims.map fun _ => (⟨newW, newH⟩ : CanvasDims),
                   history := [], historyIndex := -1 } := by
      rw [updateSize, if_neg (by omega)]
      dsimp only
      rw [if_pos hchanged]
    have h2 := commitPush_nil (-1)
      (⟨s.activeLayer, s.layers s.activeLayer, s.mask⟩ : HistoryEntry) hfit
    have hh : (updateSize s newW newH).history =
        [⟨s.activeLayer, s.layers s.activeLayer, s.mask⟩] := by
      rw [hstep]
      show (commitPush [] (-1)
        (⟨s.activeLayer, s.layers s.activeLayer, s.mask⟩ : HistoryEntry)).1 = _
      rw [h2]
    have hi : (updateSize s newW newH).historyIndex = 0 := by
      rw [hstep]
      show (commitPush [] (-1)
        (⟨s.activeLayer, s.layers s.activeLayer, s.mask⟩ : HistoryEntry)).2 = 0
      rw [h2]
      norm_num
    refine ⟨hh, hi, ?_⟩
    rw [undo, if_pos hi.le]
  · intro hsame
    have hstep : updateSize s newW newH =
        (if s.history.length = 0 then
          commitHistory
            { s with maskDim := ⟨newW, newH⟩, tempDim := ⟨newW, newH⟩,
                     compositeDim := ⟨newW, newH⟩,
                     layerDims := s.layerDims.map fun _ => (⟨newW, newH⟩ : CanvasDims) }
         else
          { s with maskDim := ⟨newW, newH⟩, tempDim := ⟨newW, newH⟩,
                   compositeDim := ⟨newW, newH⟩,
                   layerDims := s.layerDims.map fun _ => (⟨newW, newH⟩ : CanvasDims) }) := by
      rw [updateSize, if_neg (by omega)]
      dsimp only
      rw [if_neg hsame]
    constructor
    · intro hne
      rw [hstep, if_neg (by simpa [List.length_eq_zero] using hne)]
      exact ⟨rfl, rfl⟩
    · intro hemp
      rw [hstep, if_pos (by simp [hemp])]
      show (commitPush s.history s.historyIndex
        (⟨s.activeLayer, s.layers s.activeLayer, s.mask⟩ : HistoryEntry)).1 = _
      rw [hemp, commitPush_nil s.historyIndex _ hfit]

/-- Witness for C9 at a concrete state whose dimensions change. -/
theorem updateSize_history_witness :
    (updateSize smallState 3 3).history = [⟨0, [1, 2, 3, 4], [0, 0, 0, 5]⟩] ∧
    (updateSize smallState 3 3).historyIndex = 0 := by
  have h := (updateSize_history smallState 3 3 (by decide) (by decide)
    (by decide)).1 (Or.inl (by decide))
  exact ⟨h.1, h.2.1⟩

/-- A state whose active-layer snapshot alone exceeds the 150 MiB history
budget: the raster holds `157286404` bytes while the budget is `157286400`. -/
def hugeState : EngineState :=
  { layers := fun _ => List.replicate 157286404 0, mask := [], history := [],
    historyIndex := -1, activeLayer := 0, maskDim := ⟨1, 1⟩, tempDim := ⟨1, 1⟩,
    compositeDim := ⟨1, 1⟩, layerDims := [⟨1, 1⟩] }

/-- The history stack produced by `commitHistory`, as a syntactic unfolding. -/
theorem commitHistory_history_eq (s : EngineState) :
    (commitHistory s).history =
      (commitPush s.history s.historyIndex
        ⟨s.activeLayer, s.layers s.activeLayer, s.mask⟩).1 := rfl

/-- C9 counterexample: a resize that changes the mask and layer dimensions of
`hugeState` leaves the history *empty* — not "replaced by a single fresh
snapshot" — because `commitHistory`'s byte-budget eviction immediately evicts
the oversized baseline snapshot it has just pushed. -/
theorem updateSize_oversized_no_snapshot :
    (hugeState.maskDim ≠ (⟨2, 2⟩ : CanvasDims) ∨
      ∃ d ∈ hugeState.layerDims, d ≠ (⟨2, 2⟩ : CanvasDims)) ∧
    ¬((updateSize hugeState 2 2).history =
        [⟨hugeState.activeLayer,
          hugeState.layers hugeState.activeLayer, hugeState.mask⟩]) ∧
    (updateSize hugeState 2 2).history = [] := by
  have hstep : updateSize hugeState 2 2 =
      commitHistory
        { hugeState with maskDim := ⟨2, 2⟩, tempDim := ⟨2, 2⟩,
                         compositeDim := ⟨2, 2⟩,
                         layerDims := hugeState.layerDims.map fun _ => (⟨2, 2⟩ : CanvasDims),
                         history := [], historyIndex := -1 } := by
    rw [updateSize, if_neg (by omega)]
    dsimp only
    rw [if_pos (Or.inl (by decide))]
  have l1 : ∀ e : HistoryEntry, totalBytes [e] = entryBytes e := fun e => by
    simp [totalBytes]
  have l2 : ∀ (a : ℕ) (p m : List ℕ), entryBytes ⟨a, p, m⟩ = p.length + m.length :=
    fun _ _ _ => rfl
  have hbytes : MAX_HISTORY_BYTES <
      totalBytes [(⟨0, List.replicate 157286404 0, []⟩ : HistoryEntry)] := by
    rw [l1, l2, List.length_replicate, List.length_nil]
    norm_num [MAX_HISTORY_BYTES]
  have h2 : commitPush [] (-1) (⟨0, List.replicate 157286404 0, []⟩ : HistoryEntry) =
      ([], -1) := by
    rw [commitPush]
    simp only [List.take_nil, ite_self, List.nil_append]
    rw [evictWhileOver, if_pos hbytes, evictWhileOver]
    norm_num
  have hh : (updateSize hugeState 2 2).history = [] := by
    rw [hstep, commitHistory_history_eq]
    dsimp only
    simp only [hugeState]
    rw [h2]
  refine ⟨Or.inl (by decide), ?_, hh⟩
  rw [hh]
  intro hcontra
  exact List.cons_ne_nil _ _ hcontra.symm

/-! ## Paint load dynamics (src/hooks/useGouacheEngine.ts, drawSegment /
startStroke) -/

/-- The depletion rate chosen per interpolation step of `drawSegment`
(lines 1148–1150): `0.0001` wet / `0.0003` dry, lowered to `0.00005` in wet
mode below half load, and zero for dry pastel types. -/
def depletionRateOf (wetMode isPastel : Bool) (load : ℚ) : ℚ :=
  let rate : ℚ := if wetMode then 0.0001 else 0.0003
  let rate := if wetMode ∧ load < 0.5 then 0.00005 else rate
  if isPastel ∧ ¬wetMode then 0 else rate

/-- The per-step depletion update (lines 1152–1153):
`paintLoad = max(0, paintLoad - rate * (1 + speedFactor*3) * stepSize)`. -/
def depleteStep (wetMode isPastel : Bool) (load speedFactor stepSize : ℚ) : ℚ :=
  let depletion := depletionRateOf wetMode isPastel load * (1 + speedFactor * 3) * stepSize
  max 0 (load - depletion)

/-- The wet-mode per-bristle pickup update (lines 1214–1222): a bristle without
paint raises the load to at least `0.5`; a bristle with paint mixes and raises
the load by `0.05`, capped at `1`. -/
def wetPickup (load : ℚ) (hasPaint : Bool) : ℚ :=
  if hasPaint then min 1 (load + 0.05) else max load 0.5

/-- The total effect of one interpolation step of `drawSegment` on
`paintLoad`: the depletion update, followed (in wet mode only) by the pickup
updates of the bristles that landed on canvas pixels with alpha above the
threshold; `pickups` lists those bristles' `hasPaint` flags in stamping order. -/
def segmentLoadStep (wetMode isPastel : Bool) (load speedFactor stepSize : ℚ)
    (pickups : List Bool) : ℚ :=
  let l := depleteStep wetMode isPastel load speedFactor stepSize
  if wetMode then pickups.foldl wetPickup l else l

/-- The `paintLoad` reset of `startStroke` (lines 1421–1434): `1.0` with
auto-clean, otherwise raised to the floor `max(paintLoad, 0.5)`. -/
def startStrokeLoad (autoClean : Bool) (load : ℚ) : ℚ :=
  if autoClean then 1 else max load 0.5

/-- Depletion is non-negative whenever the geometric inputs are (the engine
always has `speedFactor = min(dist/15, 1) ≥ 0` and `stepSize ≥ 1.5`). -/
theorem depletionRateOf_nonneg (wetMode isPastel : Bool) (load : ℚ) :
    0 ≤ depletionRateOf wetMode isPastel load := by
  rw [depletionRateOf]
  split
  · exact le_refl 0
  · split
    · norm_num
    · split <;> norm_num

/-- One wet pickup keeps the load inside `[0, 1]`. -/
theorem wetPickup_mem {l : ℚ} (h0 : 0 ≤ l) (h1 : l ≤ 1) (b : Bool) :
    0 ≤ wetPickup l b ∧ wetPickup l b ≤ 1 := by
  rw [wetPickup]
  cases b with
  | true =>
      rw [if_pos rfl]
      constructor
      · exact le_min (by norm_num) (by linarith)
      · exact min_le_left _ _
  | false =>
      rw [if_neg (by simp)]
      constructor
      · exact le_max_of_le_left h0
      · exact max_le h1 (by norm_num)

/-- Folding wet pickups keeps the load inside `[0, 1]`. -/
theorem foldl_wetPickup_mem :
    ∀ (pk : List Bool) {l : ℚ}, 0 ≤ l → l ≤ 1 →
      0 ≤ pk.foldl wetPickup l ∧ pk.foldl wetPickup l ≤ 1
  | [], _, h0, h1 => ⟨h0, h1⟩
  | b :: pk, l, h0, h1 => by
      rw [List.foldl_cons]
      obtain ⟨g0, g1⟩ := wetPickup_mem h0 h1 b
      exact foldl_wetPickup_mem pk g0 g1

/-- The depletion update stays inside `[0, load]`. -/
theorem depleteStep_mem (wetMode isPastel : Bool) {load speedFactor stepSize : ℚ}
    (h0 : 0 ≤ load) (hsf : 0 ≤ speedFactor) (hss : 0 ≤ stepSize) :
    0 ≤ depleteStep wetMode isPastel load speedFactor stepSize ∧
    depleteStep wetMode isPastel load speedFactor stepSize ≤ load := by
  rw [depleteStep]
  have hr := depletionRateOf_nonneg wetMode isPastel load
  have hd : 0 ≤ depletionRateOf wetMode isPastel load * (1 + speedFactor * 3) * stepSize := by
    apply mul_nonneg (mul_nonneg hr (by linarith)) hss
  exact ⟨le_max_left _ _, max_le (by linarith) (by linarith)⟩

/-- C4: under every operation the stroke state's `paintLoad` stays within
`[0,1]`; while wet mode is off, a `drawSegment` step never increases it (the
pickup path is wet-only, so a dry stroke is monotonically non-increasing); and
the load recovers only via `startStroke` — exactly `1.0` with auto-clean, the
floor `max(load, 0.5)` without — or via the wet-mode pickups.  The hypotheses
are the engine's own ranges: the load starts at `1.0`, `speedFactor =
min(dist/15, 1) ≥ 0` and `stepSize = max(1.5, ·) ≥ 0`. -/
theorem paintLoad_invariant (wetMode isPastel autoClean : Bool)
    (load speedFactor stepSize : ℚ) (pickups : List Bool)
    (h0 : 0 ≤ load) (h1 : load ≤ 1) (hsf : 0 ≤ speedFactor) (hss : 0 ≤ stepSize) :
    (0 ≤ segmentLoadStep wetMode isPastel load speedFactor stepSize pickups ∧
      segmentLoadStep wetMode isPastel load speedFactor stepSize pickups ≤ 1) ∧
    segmentLoadStep false isPastel load speedFactor stepSize pickups ≤ load ∧
    (0 ≤ startStrokeLoad autoClean load ∧ startStrokeLoad autoClean load ≤ 1) ∧
    startStrokeLoad true load = 1 ∧
    startStrokeLoad false load = max load 0.5 := by
  obtain ⟨d0, dle⟩ := depleteStep_mem wetMode isPastel h0 hsf hss
  refine ⟨?_, ?_, ?_, rfl, rfl⟩
  · rw [segmentLoadStep]
    cases wetMode with
    | true =>
        rw [if_pos rfl]
        exact foldl_wetPickup_mem pickups d0 (le_trans dle h1)
    | false =>
        rw [if_neg (by simp)]
        exact (depleteStep_mem false isPastel h0 hsf hss).imp id (fun h => le_trans h h1)
  · rw [segmentLoadStep, if_neg (by simp)]
    exact (depleteStep_mem false isPastel h0 hsf hss).2
  · rw [startStrokeLoad]
    cases autoClean with
    | true => rw [if_pos rfl]; norm_num
    | false =>
        rw [if_neg (by simp)]
        exact ⟨le_max_of_le_left h0, max_le h1 (by norm_num)⟩

/-- Witness for C4 at concrete inputs: a wet step with one empty-bristle pickup
and one loaded-bristle pickup, from load `0.75`. -/
theorem paintLoad_invariant_witness :
    (0 ≤ segmentLoadStep true false 0.75 1 1.5 [false, true] ∧
      segmentLoadStep true false 0.75 1 1.5 [false, true] ≤ 1) ∧
    segmentLoadStep false false 0.75 1 1.5 [false, true] ≤ 0.75 ∧
    startStrokeLoad true 0.75 = 1 ∧
    startStrokeLoad false 0.75 = max 0.75 0.5 := by
  have h := paintLoad_invariant true false true 0.75 1 1.5 [false, true]
    (by norm_num) (by norm_num) (by norm_num) (by norm_num)
  exact ⟨h.1, h.2.1, h.2.2.2.1, h.2.2.2.2⟩

/-! ## Bristle generation (src/hooks/useGouacheEngine.ts, updateBristles) -/

/-- Geometry of one bristle particle produced by the non-pastel branch of
`updateBristles` (offset, relative length, relative thickness). -/
structure BristleGeom where
  dx : ℚ
  dy : ℚ
  len : ℚ
  thickness : ℚ
deriving DecidableEq, Repr

/-- JavaScript `Math.sign`. -/
def jsSign (q : ℚ) : ℚ := if 0 < q then 1 else if q < 0 then -1 else 0

/-- One loop iteration of the non-pastel branch of `updateBristles`
(lines 315–341): the type-specific candidate geometry, `none` when the `fan2`
arm culls the candidate (`if (Math.abs(t) > 0.2 && Math.random() < 0.4)
continue`), and the final push's length/thickness jitter.  `rand k` is the
`k`-th `Math.random()` call of this iteration; `jsSqrt`/`jsCos`/`jsSin`
abstract the real-valued `Math.sqrt`/`Math.cos`/`Math.sin`, which only the
`round` arm uses (`3.141592653589793` stands for `Math.PI`). -/
def nonPastelBristle (type : String) (i bristleCount : ℕ) (rand : ℕ → ℚ)
    (jsSqrt jsCos jsSin : ℚ → ℚ) : Option BristleGeom :=
  let push : ℚ → ℚ → ℚ → ℚ → BristleGeom := fun dx dy len thickness =>
    ⟨dx, dy, len * (0.9 + rand 10 * 0.2), thickness * (0.8 + rand 11 * 0.4)⟩
  if type = "round" then
    let r := jsSqrt (rand 0) * 0.5
    let theta := rand 1 * (2 * 3.141592653589793)
    some (push (r * jsCos theta) (r * jsSin theta * 0.5) 1 (1 - r))
  else if type = "fan" then
    some (push ((rand 0 - 0.5) * 1.2) ((rand 1 - 0.5) * 0.1) (0.8 + rand 2 * 0.4) 1)
  else if type = "fan2" then
    let t := (rand 0 - 0.5) * 2.5
    if 0.2 < |t| ∧ rand 1 < 0.4 then none
    else some (push t ((rand 2 - 0.5) * 0.1) (0.7 + rand 3 * 0.5) (0.5 + rand 4 * 0.8))
  else if type = "fan3" then
    let u := (rand 0 - 0.5) * 2
    let t := jsSign u * |u| ^ 3
    some (push (t * 1.1) ((rand 1 - 0.5) * 0.2) (0.6 + rand 2 * 0.6) (0.4 + rand 3 * 0.6))
  else if type = "hog" then
    some (push ((rand 0 - 0.5) * 0.8) ((rand 1 - 0.5) * 0.4) (0.5 + rand 2 * 1.0) 1)
  else if type = "chisel" then
    some (push ((i : ℚ) / (bristleCount : ℚ) - 0.5) 0 1 1.5)
  else
    some (push ((i : ℚ) / (bristleCount : ℚ) - 0.5) ((rand 1 - 0.5) * 0.1) 1 1)

/-- The non-pastel branch of `updateBristles` (lines 310–346): candidate count
`Math.floor(size * countMultiplier)` with multiplier `3.5` for `fan3` and
`1.5` otherwise; one candidate per iteration (possibly culled), then the
survivors are sorted by vertical offset `dy`.  `rand i k` is the `k`-th
`Math.random()` call of iteration `i`. -/
def updateBristlesList (type : String) (size : ℚ) (rand : ℕ → ℕ → ℚ)
    (jsSqrt jsCos jsSin : ℚ → ℚ) : List BristleGeom :=
  let countMultiplier : ℚ := if type = "fan3" then 3.5 else 1.5
  let bristleCount := (⌊size * countMultiplier⌋).toNat
  ((List.range bristleCount).filterMap fun i =>
      nonPastelBristle type i bristleCount (rand i) jsSqrt jsCos jsSin).mergeSort
    (fun a b => a.dy ≤ b.dy)

/-- The `fan3` arm pushes a bristle on every iteration: it never culls. -/
theorem nonPastelBristle_fan3_isSome (i n : ℕ) (r : ℕ → ℚ) (s c sn : ℚ → ℚ) :
    (nonPastelBristle "fan3" i n r s c sn).isSome := by
  rw [nonPastelBristle, if_neg (by decide : ¬("fan3" = "round")),
    if_neg (by decide : ¬("fan3" = "fan")), if_neg (by decide : ¬("fan3" = "fan2")),
    if_pos rfl]
  rfl

/-- `filterMap` with a never-`none` function preserves the length. -/
theorem length_filterMap_of_isSome {α β : Type} (f : α → Option β) :
    ∀ l : List α, (∀ a ∈ l, (f a).isSome) → (l.filterMap f).length = l.length
  | [], _ => rfl
  | a :: l, h => by
      obtain ⟨b, hb⟩ := Option.isSome_iff_exists.mp (h a (by simp))
      rw [List.filterMap_cons, hb, List.length_cons,
        length_filterMap_of_isSome f l (fun x hx => h x (by simp [hx])),
        List.length_cons]

/-- C5 counterexample: for the widest fan type `fan3` at size 10 the final
bristle count equals `⌊10 × 3.5⌋ = 35` for *every* random stream — the `fan3`
arm never culls a candidate, so the count can never fall below
`⌊size × 3.5⌋`; there is no probabilistic culling for `fan3`. -/
theorem fan3_never_culled :
    ¬ ∃ (rand : ℕ → ℕ → ℚ) (s c sn : ℚ → ℚ),
      (updateBristlesList "fan3" 10 rand s c sn).length < 35 := by
  rintro ⟨rand, s, c, sn, hlt⟩
  have hlen : (updateBristlesList "fan3" 10 rand s c sn).length = 35 := by
    rw [updateBristlesList, List.length_mergeSort, length_filterMap_of_isSome]
    · rw [List.length_range, if_pos (rfl : ("fan3" : String) = "fan3")]
      norm_num
      rfl
    · intro a _
      exact nonPastelBristle_fan3_isSome _ _ _ _ _ _
  omega

/-- C5 (amended): for non-pastel brush types `updateBristles` draws
`⌊size × m⌋` candidate particles with `m = 3.5` for the widest fan type `fan3`
and `1.5` for the other types, and the final count never exceeds that; for
`fan3` the final count always equals `⌊size × 3.5⌋` (no culling); the
probabilistic culling belongs to the `fan2` arm (multiplier 1.5) and strikes
only candidates *away* from the center of the spread (`|t| > 0.2`, culled with
probability 0.4), so the `fan2` count can fall below `⌊size × 1.5⌋`. -/
theorem updateBristles_counts (type : String) (size : ℚ) (rand : ℕ → ℕ → ℚ)
    (s c sn : ℚ → ℚ) :
    (updateBristlesList type size rand s c sn).length ≤
      (⌊size * (if type = "fan3" then 3.5 else 1.5)⌋).toNat ∧
    (updateBristlesList "fan3" size rand s c sn).length = (⌊size * 3.5⌋).toNat ∧
    (∀ (i n : ℕ) (r : ℕ → ℚ), nonPastelBristle "fan2" i n r s c sn = none →
      0.2 < |(r 0 - 0.5) * 2.5| ∧ r 1 < 0.4) ∧
    (updateBristlesList "fan2" 10 (fun _ _ => 0) s c sn).length <
      (⌊(10 : ℚ) * 1.5⌋).toNat := by
  refine ⟨?_, ?_, ?_, ?_⟩
  · rw [updateBristlesList, List.length_mergeSort]
    exact le_trans (List.length_filterMap_le _ _) (by rw [List.length_range])
  · rw [updateBristlesList, List.length_mergeSort, length_filterMap_of_isSome]
    · rw [List.length_range, if_pos (rfl : ("fan3" : String) = "fan3")]
    · intro a _
      exact nonPastelBristle_fan3_isSome _ _ _ _ _ _
  · intro i n r h
    rw [nonPastelBristle, if_neg (by decide : ¬("fan2" = "round")),
      if_neg (by decide : ¬("fan2" = "fan")), if_pos rfl] at h
    by_cases hc : 0.2 < |(r 0 - 0.5) * 2.5| ∧ r 1 < 0.4
    · exact hc
    · rw [if_neg hc] at h
      cases h
  · have hnone : ∀ (i n : ℕ),
        nonPastelBristle "fan2" i n (fun _ => (0 : ℚ)) s c sn = none := by
      intro i n
      rw [nonPastelBristle, if_neg (by decide : ¬("fan2" = "round")),
        if_neg (by decide : ¬("fan2" = "fan")), if_pos rfl,
        if_pos (⟨by
          rw [show ((0 : ℚ) - 0.5) * 2.5 = -(5 / 4) by norm_num, abs_neg,
            abs_of_nonneg (by norm_num : (0 : ℚ) ≤ 5 / 4)]
          norm_num, by norm_num⟩ :
          0.2 < |((0 : ℚ) - 0.5) * 2.5| ∧ (0 : ℚ) < 0.4)]
    rw [updateBristlesList]
    have hfm : (List.range
        ((⌊(10 : ℚ) * (if ("fan2" : String) = "fan3" then 3.5 else 1.5)⌋).toNat)).filterMap
        (fun i => nonPastelBristle "fan2" i
          ((⌊(10 : ℚ) * (if ("fan2" : String) = "fan3" then 3.5 else 1.5)⌋).toNat)
          ((fun _ _ => (0 : ℚ)) i) s c sn) = [] := by
      rw [List.filterMap_eq_nil_iff]
      intro a _
      exact hnone _ _
    rw [hfm, List.mergeSort_nil, List.length_nil]
    norm_num [Int.toNat_ofNat]

/-- Witness for C5 at a concrete culled `fan2` candidate (the constant-zero
random stream culls every candidate: each has `|t| = 1.25 > 0.2` and a culling
draw `0 < 0.4`). -/
theorem updateBristles_counts_witness :
    (0.2 < |((0 : ℚ) - 0.5) * 2.5| ∧ (0 : ℚ) < 0.4) ∧
    (updateBristlesList "fan2" 10 (fun _ _ => 0) id id id).length <
      (⌊(10 : ℚ) * 1.5⌋).toNat := by
  have h := updateBristles_counts "fan2" 10 (fun _ _ => 0) id id id
  refine ⟨h.2.2.1 0 15 (fun _ => 0) ?_, h.2.2.2⟩
  rw [nonPastelBristle, if_neg (by decide : ¬("fan2" = "round")),
    if_neg (by decide : ¬("fan2" = "fan")), if_pos rfl,
    if_pos (⟨by
      rw [show ((0 : ℚ) - 0.5) * 2.5 = -(5 / 4) by norm_num, abs_neg,
        abs_of_nonneg (by norm_num : (0 : ℚ) ≤ 5 / 4)]
      norm_num, by norm_num⟩ :
      0.2 < |((0 : ℚ) - 0.5) * 2.5| ∧ (0 : ℚ) < 0.4)]

/-! ## Hex round trip (src/utils/color.ts, rgbToHex / hexToRgb) -/

/-- The digit characters produced by JavaScript `toString(16)` (lowercase). -/
def hexDigitChar (n : ℕ) : Char :=
  if n < 10 then Char.ofNat (48 + n) else Char.ofNat (87 + n)

/-- Base-16 expansion of a natural number, most significant digit first: the
semantics of `n.toString(16)` for a non-negative integer. -/
def natToHex (n : ℕ) : List Char :=
  if _h : n < 16 then [hexDigitChar n]
  else natToHex (n / 16) ++ [hexDigitChar (n % 16)]
termination_by n
decreasing_by exact Nat.div_lt_self (by omega) (by norm_num)

/-- `rgbToHex` (src/utils/color.ts lines 198–200):
`'#' + ((1 << 24) + (r << 16) + (g << 8) + b).toString(16).slice(1)`. -/
def rgbToHex (r g b : ℕ) : String :=
  "#" ++ String.mk ((natToHex ((1 <<< 24) + (r <<< 16) + (g <<< 8) + b)).drop 1)

/-- One-character test of the regex class `[a-f\d]` under the `i` flag. -/
def isHexDigit (ch : Char) : Bool :=
  ('0' ≤ ch && ch ≤ '9') || ('a' ≤ ch && ch ≤ 'f') || ('A' ≤ ch && ch ≤ 'F')

/-- `parseInt(·, 16)` on a single digit character. -/
def hexVal (ch : Char) : ℕ :=
  if '0' ≤ ch ∧ ch ≤ '9' then ch.toNat - 48
  else if 'a' ≤ ch ∧ ch ≤ 'f' then ch.toNat - 87
  else if 'A' ≤ ch ∧ ch ≤ 'F' then ch.toNat - 55
  else 0

/-- `hexToRgb` (src/utils/color.ts lines 3–12): the anchored case-insensitive
regex `^#?([a-f\d]{2})([a-f\d]{2})([a-f\d]{2})$` with `parseInt(group, 16)`
per channel, falling back to black when the match fails. -/
def hexToRgb (sIn : String) : ℕ × ℕ × ℕ :=
  let cs := sIn.toList
  let cs := if cs.head? = some '#' then cs.tail else cs
  match cs with
  | [c1, c2, c3, c4, c5, c6] =>
      if isHexDigit c1 && isHexDigit c2 && isHexDigit c3 && isHexDigit c4 &&
          isHexDigit c5 && isHexDigit c6 then
        (16 * hexVal c1 + hexVal c2, 16 * hexVal c3 + hexVal c4,
         16 * hexVal c5 + hexVal c6)
      else (0, 0, 0)
  | _ => (0, 0, 0)

/-- Peeling one base-16 digit off `natToHex`. -/
theorem natToHex_mul_add (m d : ℕ) (hm : 0 < m) (hd : d < 16) :
    natToHex (16 * m + d) = natToHex m ++ [hexDigitChar d] := by
  rw [natToHex]
  rw [dif_neg (by omega)]
  have h1 : (16 * m + d) / 16 = m := by omega
  have h2 : (16 * m + d) % 16 = d := by omega
  rw [h1, h2]

/-- The seven hex digits of `(1 << 24) + (r << 16) + (g << 8) + b` for
byte-sized channels: a leading `1` followed by the three channel byte pairs. -/
theorem natToHex_rgb (r g b : ℕ) (hr : r ≤ 255) (hg : g ≤ 255) (hb : b ≤ 255) :
    natToHex ((1 <<< 24) + (r <<< 16) + (g <<< 8) + b) =
      [hexDigitChar 1, hexDigitChar (r / 16), hexDigitChar (r % 16),
       hexDigitChar (g / 16), hexDigitChar (g % 16),
       hexDigitChar (b / 16), hexDigitChar (b % 16)] := by
  have hN : (1 <<< 24) + (r <<< 16) + (g <<< 8) + b =
      16 * (16 * (16 * (16 * (16 * (16 * 1 + r / 16) + r % 16) + g / 16) + g % 16)
        + b / 16) + b % 16 := by
    simp only [Nat.shiftLeft_eq]
    omega
  rw [hN]
  rw [natToHex_mul_add _ _ (by omega) (by omega)]
  rw [natToHex_mul_add _ _ (by omega) (by omega)]
  rw [natToHex_mul_add _ _ (by omega) (by omega)]
  rw [natToHex_mul_add _ _ (by omega) (by omega)]
  rw [natToHex_mul_add _ _ (by omega) (by omega)]
  rw [natToHex_mul_add _ _ (by omega) (by omega)]
  rw [show natToHex 1 = [hexDigitChar 1] by
    rw [natToHex, dif_pos (by norm_num : (1 : ℕ) < 16)]]
  rfl

/-- The string built by `rgbToHex` as a character list. -/
theorem toList_hash_mk (cs : List Char) :
    ("#" ++ String.mk cs).toList = '#' :: cs := rfl

/-- C8: for every RGB triple of integers with each channel in `[0, 255]`,
`hexToRgb (rgbToHex r g b)` returns exactly `(r, g, b)` — the hex round trip
is the identity on valid RGB triples. -/
theorem hexToRgb_rgbToHex (r g b : ℕ) (hr : r ≤ 255) (hg : g ≤ 255) (hb : b ≤ 255) :
    hexToRgb (rgbToHex r g b) = (r, g, b) := by
  have hdig : ∀ d, d < 16 → isHexDigit (hexDigitChar d) = true := by decide
  have hval : ∀ d, d < 16 → hexVal (hexDigitChar d) = d := by decide
  have hr1 : r / 16 < 16 := by omega
  have hr2 : r % 16 < 16 := by omega
  have hg1 : g / 16 < 16 := by omega
  have hg2 : g % 16 < 16 := by omega
  have hb1 : b / 16 < 16 := by omega
  have hb2 : b % 16 < 16 := by omega
  rw [rgbToHex, natToHex_rgb r g b hr hg hb]
  rw [hexToRgb]
  rw [toList_hash_mk]
  simp only [List.drop_succ_cons, List.drop_zero, List.head?_cons, List.tail_cons,
    if_pos rfl]
  show (if (isHexDigit (hexDigitChar (r / 16)) && isHexDigit (hexDigitChar (r % 16)) &&
        isHexDigit (hexDigitChar (g / 16)) && isHexDigit (hexDigitChar (g % 16)) &&
        isHexDigit (hexDigitChar (b / 16)) && isHexDigit (hexDigitChar (b % 16))) = true then
      (16 * hexVal (hexDigitChar (r / 16)) + hexVal (hexDigitChar (r % 16)),
       16 * hexVal (hexDigitChar (g / 16)) + hexVal (hexDigitChar (g % 16)),
       16 * hexVal (hexDigitChar (b / 16)) + hexVal (hexDigitChar (b % 16)))
    else (0, 0, 0)) = (r, g, b)
  rw [if_pos (by
    simp only [Bool.and_eq_true]
    exact ⟨⟨⟨⟨⟨hdig _ hr1, hdig _ hr2⟩, hdig _ hg1⟩, hdig _ hg2⟩, hdig _ hb1⟩,
      hdig _ hb2⟩)]
  rw [hval _ hr1, hval _ hr2, hval _ hg1, hval _ hg2, hval _ hb1, hval _ hb2]
  have er : 16 * (r / 16) + r % 16 = r := by omega
  have eg : 16 * (g / 16) + g % 16 = g := by omega
  have eb : 16 * (b / 16) + b % 16 = b := by omega
  rw [er, eg, eb]

/-- Witness for C8 at a concrete triple. -/
theorem hexToRgb_rgbToHex_witness : hexToRgb (rgbToHex 18 52 255) = (18, 52, 255) :=
  hexToRgb_rgbToHex 18 52 255 (by decide) (by decide) (by decide)

/-! ## Pattern stamping guards (src/hooks/useGouacheEngine.ts,
drawPatternLine / drawPatternLasso) -/

/-- One stamp instance of the pattern tools: the centre of one
`ctx.drawImage` call. -/
structure Stamp where
  cx : ℚ
  cy : ℚ
deriving DecidableEq, Repr

/-- The step count of `drawPatternLine` (lines 805–806):
`Math.ceil(length / spacing)` with `spacing = max(5, max(15, 50 *
patternScale) * 0.5)`. -/
def patternLineSteps (len patternScale : ℚ) : ℤ :=
  let baseVisualSize := max 15 (50 * patternScale)
  let spacing := max 5 (baseVisualSize * 0.5)
  ⌈len / spacing⌉

/-- The tile-grid size `cols * rows` checked by `drawPatternLasso`
(lines 832–837), from the padded bounding box of the lasso points. -/
def patternLassoGridSize (points : List (ℚ × ℚ)) (patternScale : ℚ) : ℚ :=
  match points with
  | [] => 0
  | p0 :: _ =>
    let minX := points.foldl (fun m p => min m p.1) p0.1
    let maxX := points.foldl (fun m p => max m p.1) p0.1
    let minY := points.foldl (fun m p => min m p.2) p0.2
    let maxY := points.foldl (fun m p => max m p.2) p0.2
    let padding := max 20 (50 * patternScale)
    let minX := minX - padding
    let maxX := maxX + padding
    let minY := minY - padding
    let maxY := maxY + padding
    let baseVisualSize := max 15 (50 * patternScale)
    let stepX := baseVisualSize * 0.8
    let stepY := baseVisualSize * 0.8
    let cols := (maxX - minX) / stepX
    let rows := (maxY - minY) / stepY
    cols * rows

/-- `drawPatternLine` (lines 798–827) on the engine state.  `len` is the
segment length `Math.hypot(x2 - x1, y2 - y1)`, passed in because the square
root is not rational; the guards and the stamp grid use only `len`.  `render`
abstracts the rasterization of the stamp instances onto the active layer
(`ctx.drawImage` with per-instance jitter); the guards return before any
drawing and before `commitHistory`. -/
def drawPatternLine (render : List ℕ → List Stamp → List ℕ) (s : EngineState)
    (x1 y1 x2 y2 len patternScale : ℚ) : EngineState :=
  if len < 1 then s
  else
    if 2000 < patternLineSteps len patternScale then s
    else
      let baseVisualSize := max 15 (50 * patternScale)
      let spacing := max 5 (baseVisualSize * 0.5)
      let stepX := (x2 - x1) / len * spacing
      let stepY := (y2 - y1) / len * spacing
      let stamps := (List.range ((patternLineSteps len patternScale).toNat + 1)).map
        fun i => (⟨x1 + stepX * i, y1 + stepY * i⟩ : Stamp)
      commitHistory
        { s with layers := fun l =>
            if l = s.activeLayer then render (s.layers s.activeLayer) stamps
            else s.layers l }

/-- `drawPatternLasso` (lines 829–856) on the engine state: bail out below 3
points, compute the padded bounding box and the tile grid, refuse the job when
`cols * rows > 5000` (before any drawing and before `commitHistory`),
otherwise stamp the grid (one instance per cell, centred at
`(gx + stepX/2, gy + stepY/2)` from `startGrid = ⌊min/step⌋*step`) through
`render` and commit. -/
def drawPatternLasso (render : List ℕ → List Stamp → List ℕ) (s : EngineState)
    (points : List (ℚ × ℚ)) (patternScale : ℚ) : EngineState :=
  match points with
  | [] => s
  | p0 :: rest =>
    if (p0 :: rest).length < 3 then s
    else
      if 5000 < patternLassoGridSize (p0 :: rest) patternScale then s
      else
        let minX := (p0 :: rest).foldl (fun m p => min m p.1) p0.1
        let minY := (p0 :: rest).foldl (fun m p => min m p.2) p0.2
        let maxX := (p0 :: rest).foldl (fun m p => max m p.1) p0.1
        let maxY := (p0 :: rest).foldl (fun m p => max m p.2) p0.2
        let padding := max 20 (50 * patternScale)
        let minX := minX - padding
        let maxX := maxX + padding
        let minY := minY - padding
        let maxY := maxY + padding
        let baseVisualSize := max 15 (50 * patternScale)
        let stepX := baseVisualSize * 0.8
        let stepY := baseVisualSize * 0.8
        let startGridX := ⌊minX / stepX⌋ * stepX
        let startGridY := ⌊minY / stepY⌋ * stepY
        let nCols := (⌈(maxX - startGridX) / stepX⌉).toNat
        let nRows := (⌈(maxY - startGridY) / stepY⌉).toNat
        let stamps := ((List.range nRows).map fun gy =>
          (List.range nCols).map fun gx =>
            (⟨startGridX + gx * stepX + stepX / 2,
              startGridY + gy * stepY + stepY / 2⟩ : Stamp)).flatten
        commitHistory
          { s with layers := fun l =>
              if l = s.activeLayer then render (s.layers s.activeLayer) stamps
              else s.layers l }

/-- C10: the pattern stamping operations silently refuse oversized work at the
public interface: `drawPatternLasso` returns without drawing and without
committing a history entry when the tile grid would exceed 5000 instances, and
`drawPatternLine` does the same when the line would require more than 2000
stamp steps — the whole engine state (active layer raster and history
included) is unchanged in both cases, for every rasterizer. -/
theorem pattern_guards (render : List ℕ → List Stamp → List ℕ) (s : EngineState)
    (x1 y1 x2 y2 len patternScale : ℚ) (points : List (ℚ × ℚ))
    (hline : 2000 < patternLineSteps len patternScale)
    (hlasso : 5000 < patternLassoGridSize points patternScale) :
    drawPatternLine render s x1 y1 x2 y2 len patternScale = s ∧
    drawPatternLasso render s points patternScale = s := by
  constructor
  · rw [drawPatternLine]
    by_cases hl : len < 1
    · rw [if_pos hl]
    · rw [if_neg hl, if_pos hline]
  · cases points with
    | nil => rfl
    | cons p0 rest =>
        rw [drawPatternLasso]
        by_cases h3 : (p0 :: rest).length < 3
        · rw [if_pos h3]
        · rw [if_neg h3, if_pos hlasso]

/-- Witness for C10 at concrete oversized inputs: a 60000-px line at scale 1
(2400 steps) and a 100000-px triangle at scale 1 (grid ≈ 2502.5²). -/
theorem pattern_guards_witness :
    drawPatternLine (fun raster _ => raster) initState 0 0 60000 0 60000 1
      = initState ∧
    drawPatternLasso (fun raster _ => raster) initState
      [(0, 0), (100000, 0), (0, 100000)] 1 = initState := by
  refine pattern_guards _ initState 0 0 60000 0 60000 1 _ ?_ ?_
  · rw [patternLineSteps]
    norm_num [max_def]
  · rw [patternLassoGridSize]
    norm_num [max_def, min_def]
